import Mathlib

/-!
Shallow embedding of the core coverage-mapping logic of `ClangCoverage.py`:
the `Segment` model, the `FileMapping` constructor (sorting, per-line segment
activation, dominant-count resolution, `maxCount`), the `countedLines` and
`lineCount` queries, and the uncovered-region extraction performed by
`draw_uncovered_segments`.

Python dictionaries (`defaultdict(list)` and the plain `dict`) are modelled as
insertion-ordered association lists, matching Python 3.7+ dict semantics.
Python's stable `sorted` is modelled by `List.insertionSort`, which is also
stable (earlier elements stay before later elements comparing equal).
-/

namespace ClangCoverage

/-- Embeds the `Segment` namedtuple: `line col count hasCount isRegionEntry`. -/
structure Segment where
  line : Nat
  col : Nat
  count : Nat
  hasCount : Bool
  isRegionEntry : Bool
deriving DecidableEq, Repr

/-- Embeds the sort key `lambda x: (x.line, x.col)` (Python tuples compare
lexicographically): `a` sorts no later than `b`. -/
def segLE (a b : Segment) : Prop :=
  a.line < b.line ∨ (a.line = b.line ∧ a.col ≤ b.col)

instance : DecidableRel segLE := fun a b => by
  unfold segLE; infer_instance

instance : IsTotal Segment segLE where
  total a b := by
    unfold segLE
    rcases Nat.lt_trichotomy a.line b.line with h | h | h
    · exact Or.inl (Or.inl h)
    · rcases Nat.le_total a.col b.col with hc | hc
      · exact Or.inl (Or.inr ⟨h, hc⟩)
      · exact Or.inr (Or.inr ⟨h.symm, hc⟩)
    · exact Or.inr (Or.inl h)

instance : IsTrans Segment segLE where
  trans a b c hab hbc := by
    unfold segLE at *
    rcases hab with h1 | ⟨e1, c1⟩
    · rcases hbc with h2 | ⟨e2, _⟩
      · exact Or.inl (h1.trans h2)
      · exact Or.inl (e2 ▸ h1)
    · rcases hbc with h2 | ⟨e2, c2⟩
      · exact Or.inl (e1 ▸ h2)
      · exact Or.inr ⟨e1.trans e2, c1.trans c2⟩

/-- Embeds `sorted(segments, key = lambda x: (x.line, x.col))` (line 12 of the
source); Python's sort and `insertionSort` are both stable. -/
def sortSegments (l : List Segment) : List Segment :=
  List.insertionSort segLE l

/-- Embeds line 21 of the source:
`end = (seg.line+1) if seg.col > 0 else seg.line`. -/
def segEnd (seg : Segment) : Nat :=
  if seg.col > 0 then seg.line + 1 else seg.line

/-- Embeds `self.segmentsForLine[line].append(prev_seg)` on a
`defaultdict(list)`: append to the entry for `line`, creating it (at the end,
in insertion order) when absent. -/
def addSeg : List (Nat × List Segment) → Nat → Segment → List (Nat × List Segment)
  | [], line, s => [(line, [s])]
  | (l, ss) :: rest, line, s =>
    if l = line then (l, ss ++ [s]) :: rest
    else (l, ss) :: addSeg rest line s

/-- Embeds `for line in range(start, end): self.segmentsForLine[line].append(s)`
(`List.range' start n` enumerates `start, start+1, ..., start+n-1`, and
`stop - start` truncates at `0` exactly as Python `range` yields nothing when
`stop <= start`). -/
def registerRange (m : List (Nat × List Segment)) (s : Segment)
    (start stop : Nat) : List (Nat × List Segment) :=
  (List.range' start (stop - start)).foldl (fun m line => addSeg m line s) m

/-- Embeds the first loop of `FileMapping.__init__` (lines 16-25): walk the
sorted segments keeping `prev_seg`, registering `prev_seg` as active for every
line in `range(prev_seg.line, end)`. Iterating consecutive pairs
`(prev_seg, seg)` of the sorted list is exactly that loop. -/
def buildSFL (sorted : List Segment) : List (Nat × List Segment) :=
  (sorted.zip sorted.tail).foldl
    (fun m p => registerRange m p.1 p.1.line (segEnd p.2)) []

/-- Embeds the Python bool-then-int comparison of the priority key
`(x.isRegionEntry, x.count)` (True > False). -/
def entryVal (s : Segment) : Nat :=
  if s.isRegionEntry then 1 else 0

/-- Embeds the descending order used at line 30 of the source:
`sorted(segments, key = lambda x: (x.isRegionEntry, x.count), reverse = True)`.
`prioGE a b` holds when `a` ranks at least as high as `b`. -/
def prioGE (a b : Segment) : Prop :=
  entryVal b < entryVal a ∨ (entryVal a = entryVal b ∧ b.count ≤ a.count)

instance : DecidableRel prioGE := fun a b => by
  unfold prioGE; infer_instance

instance : IsTotal Segment prioGE where
  total a b := by
    unfold prioGE
    rcases Nat.lt_trichotomy (entryVal a) (entryVal b) with h | h | h
    · exact Or.inr (Or.inl h)
    · rcases Nat.le_total a.count b.count with hc | hc
      · exact Or.inr (Or.inr ⟨h.symm, hc⟩)
      · exact Or.inl (Or.inr ⟨h, hc⟩)
    · exact Or.inl (Or.inl h)

instance : IsTrans Segment prioGE where
  trans a b c hab hbc := by
    unfold prioGE at *
    rcases hab with h1 | ⟨e1, c1⟩
    · rcases hbc with h2 | ⟨e2, _⟩
      · exact Or.inl (h2.trans h1)
      · exact Or.inl (e2 ▸ h1)
    · rcases hbc with h2 | ⟨e2, c2⟩
      · exact Or.inl (e1 ▸ h2)
      · exact Or.inr ⟨e1 ▸ e2, c2.trans c1⟩

/-- Embeds `prioritized = sorted(segments, key = sort_by_entry, reverse = True)`
(line 30): a stable descending sort by `(isRegionEntry, count)`; Python's
`reverse=True` sort is stable, as is `insertionSort`. -/
def prioritize (l : List Segment) : List Segment :=
  List.insertionSort prioGE l

/-- Embeds `prioritized[0].count` (lines 31-32). The `[]` branch never occurs:
values of `segmentsForLine` are nonempty by construction. -/
def dominantCount (l : List Segment) : Nat :=
  match prioritize l with
  | [] => 0
  | s :: _ => s.count

/-- Embeds the second loop of `FileMapping.__init__` (lines 27-32): iterate
`segmentsForLine` in insertion order, assigning `lineCounts[line]` and folding
the running maximum into `maxCount` (initially `0`). -/
def buildLC (sfl : List (Nat × List Segment)) : List (Nat × Nat) × Nat :=
  sfl.foldl
    (fun acc p => (acc.1 ++ [(p.1, dominantCount p.2)],
                   Nat.max acc.2 (dominantCount p.2)))
    ([], 0)

/-- Embeds the `FileMapping` object after `__init__` finishes. -/
structure FileMapping where
  name : String
  segments : List Segment
  segmentsForLine : List (Nat × List Segment)
  lineCounts : List (Nat × Nat)
  maxCount : Nat
deriving DecidableEq, Repr

/-- Embeds `FileMapping(name, segments)` — the whole of `__init__`
(lines 9-32). -/
def buildMapping (name : String) (segs : List Segment) : FileMapping :=
  let sorted := sortSegments segs
  let sfl := buildSFL sorted
  let lc := buildLC sfl
  { name := name
    segments := sorted
    segmentsForLine := sfl
    lineCounts := lc.1
    maxCount := lc.2 }

/-- Embeds `countedLines` (lines 34-36): a fresh generator over
`self.lineCounts.items()`, i.e. the sequence of `(line, cnt)` pairs re-derived
from the stored `lineCounts` each call. -/
def FileMapping.countedLines (m : FileMapping) : List (Nat × Nat) :=
  m.lineCounts

/-- Embeds `lineCount` (lines 38-39): `self.lineCounts.get(line, None)`,
`none` playing the role of Python's `None`. -/
def FileMapping.lineCount (m : FileMapping) (line : Nat) : Option Nat :=
  m.lineCounts.lookup line

/-- Embeds the filter at line 106 of the source:
`pair[0].count == 0 and pair[0].isRegionEntry`. -/
def qualPair (p : Segment × Segment) : Bool :=
  p.1.count == 0 && p.1.isRegionEntry

/-- Embeds `seg_pair_to_region` (lines 100-104) in the source's native 1-based
line/column coordinates: the region runs from `a`'s position to `b`'s position
(the editor-buffer conversion `view.text_point(line-1, col-1)` is the
out-of-scope rendering adapter). -/
def segPairToRegion (p : Segment × Segment) : (Nat × Nat) × (Nat × Nat) :=
  ((p.1.line, p.1.col), (p.2.line, p.2.col))

/-- Embeds `draw_uncovered_segments` (lines 105-107): zip the sorted segments
with their tail, keep qualifying pairs, map each to a region. -/
def uncoveredRegions (m : FileMapping) : List ((Nat × Nat) × (Nat × Nat)) :=
  ((m.segments.zip m.segments.tail).filter qualPair).map segPairToRegion

/-- Lexicographic order on 1-based (line, col) positions. -/
def posLE (p q : Nat × Nat) : Prop :=
  p.1 < q.1 ∨ (p.1 = q.1 ∧ p.2 ≤ q.2)

/-- The sort key `(x.line, x.col)` of a segment. -/
def segKey (s : Segment) : Nat × Nat :=
  (s.line, s.col)

/-- Forgets the `hasCount` field (replacing it by `false`); every other field
is preserved. -/
def scrub (s : Segment) : Segment :=
  ⟨s.line, s.col, s.count, false, s.isRegionEntry⟩

/-- Two segments that agree on every field except possibly `hasCount`. -/
def EqExceptHasCount (a b : Segment) : Prop :=
  a.line = b.line ∧ a.col = b.col ∧ a.count = b.count ∧
    a.isRegionEntry = b.isRegionEntry

end ClangCoverage

namespace ClangCoverage

/-- Unfolds `buildLC` into its two components: `lineCounts` is the image of
`segmentsForLine` under dominant-count resolution, and `maxCount` is the
running maximum (from `0`) of the resolved counts. -/
theorem buildLC_eq (sfl : List (Nat × List Segment)) :
    buildLC sfl = (sfl.map (fun p => (p.1, dominantCount p.2)),
                   (sfl.map (fun p => dominantCount p.2)).foldl Nat.max 0) := by
  have h : ∀ (l : List (Nat × List Segment)) (acc : List (Nat × Nat) × Nat),
      l.foldl (fun acc p => (acc.1 ++ [(p.1, dominantCount p.2)],
                             Nat.max acc.2 (dominantCount p.2))) acc
        = (acc.1 ++ l.map (fun p => (p.1, dominantCount p.2)),
           (l.map (fun p => dominantCount p.2)).foldl Nat.max acc.2) := by
    intro l
    induction l with
    | nil => intro acc; simp
    | cons p t ih => intro acc; simp [ih]
  simpa [buildLC] using h sfl ([], 0)

/-- Looking a key up after mapping a function over the values commutes. -/
theorem lookup_map_val (f : List Segment → Nat)
    (l : List (Nat × List Segment)) (k : Nat) :
    (l.map (fun p => (p.1, f p.2))).lookup k = (l.lookup k).map f := by
  induction l with
  | nil => rfl
  | cons p t ih =>
    by_cases h : k = p.1
    · simp [List.lookup, h]
    · have hb : (k == p.1) = false := by simp [h]
      simp [List.lookup, hb, ih]

/-- The `lineCount` query is key lookup in `segmentsForLine` followed by
dominant-count resolution. -/
theorem lineCount_eq (n : String) (segs : List Segment) (line : Nat) :
    (buildMapping n segs).lineCount line
      = ((buildMapping n segs).segmentsForLine.lookup line).map dominantCount := by
  show (buildLC (buildSFL (sortSegments segs))).1.lookup line
      = ((buildSFL (sortSegments segs)).lookup line).map dominantCount
  rw [buildLC_eq, lookup_map_val]

/-- Keys after an `addSeg` are the old keys, possibly with the new key. -/
theorem mem_keys_addSeg (m : List (Nat × List Segment)) (l : Nat) (s : Segment)
    (k : Nat) :
    k ∈ (addSeg m l s).map Prod.fst ↔ k ∈ m.map Prod.fst ∨ k = l := by
  induction m with
  | nil => simp [addSeg]
  | cons p t ih =>
    cases p with
    | mk a ss =>
      by_cases h : a = l
      · subst h
        simp [addSeg]
        tauto
      · simp [addSeg, h, ih]
        tauto

/-- The `defaultdict` update keeps the keys without duplicates. -/
theorem nodup_keys_addSeg (m : List (Nat × List Segment)) (l : Nat) (s : Segment)
    (h : (m.map Prod.fst).Nodup) : ((addSeg m l s).map Prod.fst).Nodup := by
  induction m with
  | nil => simp [addSeg]
  | cons p t ih =>
    cases p with
    | mk a ss =>
      by_cases ha : a = l
      · subst ha
        simpa [addSeg] using h
      · simp only [List.map_cons, List.nodup_cons] at h
        simp only [addSeg, if_neg ha, List.map_cons, List.nodup_cons]
        refine ⟨fun hmem => ?_, ih h.2⟩
        rcases (mem_keys_addSeg t l s a).mp hmem with hk | hk
        · exact h.1 hk
        · exact ha hk

/-- Folding `addSeg` over any list of lines keeps the keys without
duplicates. -/
theorem nodup_keys_foldl_addSeg (s : Segment) (lines : List Nat) :
    ∀ m : List (Nat × List Segment), (m.map Prod.fst).Nodup →
      ((lines.foldl (fun m line => addSeg m line s) m).map Prod.fst).Nodup := by
  induction lines with
  | nil => intro m h; exact h
  | cons a t ih => intro m h; exact ih _ (nodup_keys_addSeg m a s h)

/-- The `segmentsForLine` dictionary has no duplicated line keys. -/
theorem nodup_keys_buildSFL (sorted : List Segment) :
    ((buildSFL sorted).map Prod.fst).Nodup := by
  unfold buildSFL
  generalize sorted.zip sorted.tail = ps
  have h : ∀ (ps : List (Segment × Segment)) (m : List (Nat × List Segment)),
      (m.map Prod.fst).Nodup →
      ((ps.foldl (fun m p => registerRange m p.1 p.1.line (segEnd p.2)) m).map
        Prod.fst).Nodup := by
    intro ps
    induction ps with
    | nil => intro m h; exact h
    | cons q t ih =>
      intro m h
      exact ih _ (nodup_keys_foldl_addSeg q.1 _ m h)
  simpa using h ps []

/-- The seed of a `foldl Nat.max` is a lower bound of the result. -/
theorem le_foldl_max (l : List Nat) : ∀ a : Nat, a ≤ l.foldl Nat.max a := by
  induction l with
  | nil => intro a; exact Nat.le_refl a
  | cons x t ih =>
    intro a
    exact Nat.le_trans (Nat.le_max_left a x) (ih (Nat.max a x))

/-- Every element of the list is bounded by the `foldl Nat.max` result. -/
theorem mem_le_foldl_max (l : List Nat) : ∀ (a x : Nat), x ∈ l →
    x ≤ l.foldl Nat.max a := by
  induction l with
  | nil => simp
  | cons y t ih =>
    intro a x hx
    rcases List.mem_cons.mp hx with h | h
    · subst h
      exact Nat.le_trans (Nat.le_max_right a x) (le_foldl_max t _)
    · exact ih _ x h

/-- A `foldl Nat.max` result is the seed or some element of the list. -/
theorem foldl_max_eq_seed_or_mem (l : List Nat) : ∀ a : Nat,
    l.foldl Nat.max a = a ∨ ∃ x ∈ l, l.foldl Nat.max a = x := by
  induction l with
  | nil => intro a; exact Or.inl rfl
  | cons y t ih =>
    intro a
    rcases ih (Nat.max a y) with h | ⟨x, hx, he⟩
    · rcases Nat.le_total a y with hay | hya
      · refine Or.inr ⟨y, List.mem_cons_self y t, ?_⟩
        simpa [Nat.max_eq_right hay] using h
      · refine Or.inl ?_
        simpa [Nat.max_eq_left hya] using h
    · exact Or.inr ⟨x, List.mem_cons_of_mem _ hx, he⟩

/-- Membership in an association list with duplicate-free keys coincides with
lookup. -/
theorem mem_iff_lookup {l : List (Nat × Nat)} (h : (l.map Prod.fst).Nodup)
    (k v : Nat) : (k, v) ∈ l ↔ l.lookup k = some v := by
  induction l with
  | nil => simp [List.lookup]
  | cons p t ih =>
    cases p with
    | mk a b =>
      simp only [List.map_cons, List.nodup_cons] at h
      by_cases hk : k = a
      · subst hk
        constructor
        · intro hm
          rcases List.mem_cons.mp hm with he | hm
          · rw [Prod.mk.injEq] at he
            simp [List.lookup, he.2]
          · exact absurd (List.mem_map_of_mem Prod.fst hm) h.1
        · intro hl
          have hb : b = v := by simpa [List.lookup] using hl
          exact hb ▸ List.mem_cons_self _ _
      · have hb : (k == a) = false := by simp [hk]
        simp [List.lookup, hb, hk, ih h.2]

/-- C1: the claim says that for a consecutive sorted pair `(prev, cur)` with
`cur.col == 1` the segment `prev` is active exactly on `[prev.line, cur.line)`.
The code (source line 21) tests `seg.col > 0`, which holds for every 1-based
column, so on the input `[(1,1,0,true,true), (3,1,7,true,false)]` — where
`cur = (3,1,...)` starts at column 1 — the first segment is registered for
lines 1, 2 AND 3, i.e. for `[1, cur.line + 1)` instead of the claimed
`[1, cur.line)`. This theorem evaluates the code at that failing input. -/
theorem c1_activation_range_divergence :
    (buildMapping "f" [⟨1, 1, 0, true, true⟩, ⟨3, 1, 7, true, false⟩]).segmentsForLine
      = [(1, [⟨1, 1, 0, true, true⟩]), (2, [⟨1, 1, 0, true, true⟩]),
         (3, [⟨1, 1, 0, true, true⟩])] := by decide

/-- C2: on the input `[(1,1,0,true,true), (3,1,7,true,false)]` the claim
expects `lineCounts == {1:0, 2:0}`, but the code (with its vacuous
`seg.col > 0` test at source line 21) also registers the first segment on
line 3 and produces `lineCounts == {1:0, 2:0, 3:0}`. The `maxCount == 0` and
single-uncovered-region `(1,1)→(3,1)` parts of the claim do hold. -/
theorem c2_two_segment_divergence :
    (buildMapping "f" [⟨1, 1, 0, true, true⟩, ⟨3, 1, 7, true, false⟩]).lineCounts
        = [(1, 0), (2, 0), (3, 0)]
    ∧ (buildMapping "f" [⟨1, 1, 0, true, true⟩, ⟨3, 1, 7, true, false⟩]).maxCount = 0
    ∧ uncoveredRegions
        (buildMapping "f" [⟨1, 1, 0, true, true⟩, ⟨3, 1, 7, true, false⟩])
        = [((1, 1), (3, 1))] := by
  refine ⟨by decide, by decide, by decide⟩

/-- C4: for every line that has active segments (a `segmentsForLine` entry),
the resolved count returned by `lineCount` is the `count` of the top-ranked
segment under the stable descending `(isRegionEntry, count)` order — i.e.
`dominantCount` of the line's active-segment list. -/
theorem c4_dominant_count_resolution (n : String) (segs : List Segment)
    (line : Nat) (ss : List Segment)
    (h : (buildMapping n segs).segmentsForLine.lookup line = some ss) :
    (buildMapping n segs).lineCount line = some (dominantCount ss) := by
  rw [lineCount_eq, h]
  rfl

/-- Witness for C4, realising the claim's tie-break example: on line 1 the
active segments are `(isRegionEntry=true, count=2)` and
`(isRegionEntry=false, count=9)`, and the resolved line count is `2`. -/
theorem c4_dominant_count_resolution_witness :
    (buildMapping "f" [⟨1, 1, 2, true, true⟩, ⟨1, 5, 9, true, false⟩,
        ⟨2, 1, 0, true, false⟩]).segmentsForLine.lookup 1
      = some [⟨1, 1, 2, true, true⟩, ⟨1, 5, 9, true, false⟩]
    ∧ dominantCount [⟨1, 1, 2, true, true⟩, ⟨1, 5, 9, true, false⟩] = 2
    ∧ (buildMapping "f" [⟨1, 1, 2, true, true⟩, ⟨1, 5, 9, true, false⟩,
        ⟨2, 1, 0, true, false⟩]).lineCount 1
      = some (dominantCount [⟨1, 1, 2, true, true⟩, ⟨1, 5, 9, true, false⟩]) :=
  ⟨by decide, by decide,
   c4_dominant_count_resolution "f"
     [⟨1, 1, 2, true, true⟩, ⟨1, 5, 9, true, false⟩, ⟨2, 1, 0, true, false⟩]
     1 [⟨1, 1, 2, true, true⟩, ⟨1, 5, 9, true, false⟩] (by decide)⟩

/-- C5: after construction, `lineCounts` has exactly the keys of
`segmentsForLine` (in the same order), and `maxCount` is the maximum of the
`lineCounts` values — `0` when `lineCounts` is empty, an upper bound of every
value, and attained by some entry whenever `lineCounts` is nonempty. -/
theorem c5_max_count_and_keys (n : String) (segs : List Segment) :
    (buildMapping n segs).lineCounts.map Prod.fst
        = (buildMapping n segs).segmentsForLine.map Prod.fst
    ∧ ((buildMapping n segs).lineCounts = [] → (buildMapping n segs).maxCount = 0)
    ∧ (∀ p ∈ (buildMapping n segs).lineCounts, p.2 ≤ (buildMapping n segs).maxCount)
    ∧ ((buildMapping n segs).lineCounts ≠ [] →
        ∃ p ∈ (buildMapping n segs).lineCounts, (buildMapping n segs).maxCount = p.2) := by
  have hlc : (buildMapping n segs).lineCounts
      = (buildSFL (sortSegments segs)).map (fun p => (p.1, dominantCount p.2)) := by
    show (buildLC (buildSFL (sortSegments segs))).1 = _
    rw [buildLC_eq]
  have hmx : (buildMapping n segs).maxCount
      = ((buildSFL (sortSegments segs)).map
          (fun p => dominantCount p.2)).foldl Nat.max 0 := by
    show (buildLC (buildSFL (sortSegments segs))).2 = _
    rw [buildLC_eq]
  have hvals : (buildMapping n segs).lineCounts.map Prod.snd
      = (buildSFL (sortSegments segs)).map (fun p => dominantCount p.2) := by
    rw [hlc, List.map_map]
    rfl
  refine ⟨?_, ?_, ?_, ?_⟩
  · rw [hlc, List.map_map]
    rfl
  · intro he
    rw [hmx, ← hvals, he]
    rfl
  · intro p hp
    rw [hmx, ← hvals]
    exact mem_le_foldl_max _ 0 p.2 (List.mem_map_of_mem Prod.snd hp)
  · intro hne
    rw [hmx, ← hvals]
    rcases foldl_max_eq_seed_or_mem ((buildMapping n segs).lineCounts.map Prod.snd) 0
      with h0 | ⟨x, hx, he⟩
    · rcases List.exists_mem_of_ne_nil _ hne with ⟨p, hp⟩
      refine ⟨p, hp, ?_⟩
      have hle : p.2 ≤ ((buildMapping n segs).lineCounts.map Prod.snd).foldl Nat.max 0 :=
        mem_le_foldl_max _ 0 p.2 (List.mem_map_of_mem Prod.snd hp)
      rw [h0] at hle
      rw [h0]
      exact (Nat.le_zero.mp hle).symm
    · rcases List.mem_map.mp hx with ⟨p, hp, hpx⟩
      exact ⟨p, hp, hpx ▸ he⟩

/-- Witness for C5 at the concrete input `[(1,1,4,true,true), (2,1,0,true,false)]`:
`lineCounts` is nonempty and `maxCount` is attained by one of its entries. -/
theorem c5_max_count_and_keys_witness :
    (buildMapping "f" [⟨1, 1, 4, true, true⟩, ⟨2, 1, 0, true, false⟩]).lineCounts ≠ []
    ∧ ∃ p ∈ (buildMapping "f" [⟨1, 1, 4, true, true⟩, ⟨2, 1, 0, true, false⟩]).lineCounts,
        (buildMapping "f" [⟨1, 1, 4, true, true⟩, ⟨2, 1, 0, true, false⟩]).maxCount = p.2 :=
  ⟨by decide,
   (c5_max_count_and_keys "f" [⟨1, 1, 4, true, true⟩, ⟨2, 1, 0, true, false⟩]).2.2.2
     (by decide)⟩

/-- C7: construction is total; the empty input and every single-segment input
yield an empty `lineCounts` and `maxCount = 0` (the last segment — here the
only one — is never registered as active for any line), in particular for the
claim's example `[(1,1,5,true,true)]`. -/
theorem c7_empty_and_singleton (n : String) :
    ((buildMapping n []).lineCounts = [] ∧ (buildMapping n []).maxCount = 0)
    ∧ (∀ s : Segment,
        (buildMapping n [s]).lineCounts = [] ∧ (buildMapping n [s]).maxCount = 0
        ∧ (buildMapping n [s]).segmentsForLine = [])
    ∧ ((buildMapping n [⟨1, 1, 5, true, true⟩]).lineCounts = []
        ∧ (buildMapping n [⟨1, 1, 5, true, true⟩]).maxCount = 0) :=
  ⟨⟨rfl, rfl⟩, fun _ => ⟨rfl, rfl, rfl⟩, rfl, rfl⟩

/-- C8: `countedLines` is restartable and re-derived from stored state — two
calls on the same mapping give the same sequence of pairs, and the pairs are
exactly the `(line, count)` pairs answered by the `lineCount` query. -/
theorem c8_counted_lines_restartable (n : String) (segs : List Segment) :
    (buildMapping n segs).countedLines = (buildMapping n segs).countedLines
    ∧ ∀ line c : Nat,
        ((line, c) ∈ (buildMapping n segs).countedLines
          ↔ (buildMapping n segs).lineCount line = some c) := by
  refine ⟨rfl, fun line c => ?_⟩
  have hnd : ((buildMapping n segs).lineCounts.map Prod.fst).Nodup := by
    have hlc : (buildMapping n segs).lineCounts
        = (buildSFL (sortSegments segs)).map (fun p => (p.1, dominantCount p.2)) := by
      show (buildLC (buildSFL (sortSegments segs))).1 = _
      rw [buildLC_eq]
    rw [hlc, List.map_map]
    exact nodup_keys_buildSFL (sortSegments segs)
  exact mem_iff_lookup hnd line c

/-- Witness for C8 at the concrete input
`[(1,1,0,true,true), (3,1,7,true,false)]`: `(1, 0)` is among the counted lines
and agrees with `lineCount`. -/
theorem c8_counted_lines_restartable_witness :
    (1, 0) ∈ (buildMapping "f" [⟨1, 1, 0, true, true⟩,
        ⟨3, 1, 7, true, false⟩]).countedLines
    ∧ (buildMapping "f" [⟨1, 1, 0, true, true⟩,
        ⟨3, 1, 7, true, false⟩]).lineCount 1 = some 0 :=
  ⟨((c8_counted_lines_restartable "f" [⟨1, 1, 0, true, true⟩,
      ⟨3, 1, 7, true, false⟩]).2 1 0).mpr (by decide),
   by decide⟩

/-- C9: `lineCount` answers the resolved count for lines with active segments
and the sentinel `none` (Python `None`) otherwise; the sentinel is not an
error and is distinct from a count of `0`. -/
theorem c9_line_count_sentinel (n : String) (segs : List Segment) (line : Nat) :
    (buildMapping n segs).lineCount line
        = ((buildMapping n segs).segmentsForLine.lookup line).map dominantCount
    ∧ ((buildMapping n segs).segmentsForLine.lookup line = none →
        (buildMapping n segs).lineCount line = none)
    ∧ (none : Option Nat) ≠ some 0 := by
  refine ⟨lineCount_eq n segs line, fun h => ?_, by simp⟩
  rw [lineCount_eq, h]
  rfl

/-- Witness for C9: the empty mapping has no active segments on line 1, and
the query answers the `none` sentinel there. -/
theorem c9_line_count_sentinel_witness :
    (buildMapping "f" []).segmentsForLine.lookup 1 = none
    ∧ (buildMapping "f" []).lineCount 1 = none :=
  ⟨by decide, (c9_line_count_sentinel "f" [] 1).2.1 (by decide)⟩

/-- Mutual `segLE` forces equal sort keys. -/
theorem segKey_eq_of_segLE {a b : Segment} (h1 : segLE a b) (h2 : segLE b a) :
    segKey a = segKey b := by
  unfold segLE at h1 h2
  unfold segKey
  rcases h1 with h | ⟨e, c⟩
  · rcases h2 with h' | ⟨e', _⟩
    · exact absurd (h.trans h') (Nat.lt_irrefl _)
    · exact absurd (e' ▸ h) (Nat.lt_irrefl _)
  · rcases h2 with h' | ⟨_, c'⟩
    · exact absurd (e ▸ h') (Nat.lt_irrefl _)
    · rw [e, Nat.le_antisymm c c']

/-- Two sorted permutations of each other with duplicate-free sort keys are
the same list (sorted order is unique when no two segments share a
position). -/
theorem eq_of_perm_sorted_keys : ∀ {l₁ l₂ : List Segment}, l₁.Perm l₂ →
    List.Pairwise segLE l₁ → List.Pairwise segLE l₂ →
    (l₁.map segKey).Nodup → l₁ = l₂ := by
  intro l₁
  induction l₁ with
  | nil =>
    intro l₂ hp _ _ _
    exact hp.nil_eq
  | cons a t ih =>
    intro l₂ hp hs₁ hs₂ hnd
    cases l₂ with
    | nil => exact absurd hp.eq_nil (by simp)
    | cons b u =>
      by_cases hab : a = b
      · subst hab
        have ht : t.Perm u := hp.cons_inv
        have he : t = u := by
          refine ih ht hs₁.of_cons hs₂.of_cons ?_
          rw [List.map_cons, List.nodup_cons] at hnd
          exact hnd.2
        rw [he]
      · have ha : a ∈ b :: u := hp.mem_iff.mp (List.mem_cons_self a t)
        have ha' : a ∈ u := by
          rcases List.mem_cons.mp ha with h | h
          · exact absurd h hab
          · exact h
        have hb : b ∈ a :: t := hp.mem_iff.mpr (List.mem_cons_self b u)
        have hb' : b ∈ t := by
          rcases List.mem_cons.mp hb with h | h
          · exact absurd h.symm hab
          · exact h
        have h1 : segLE a b := (List.pairwise_cons.mp hs₁).1 b hb'
        have h2 : segLE b a := (List.pairwise_cons.mp hs₂).1 a ha'
        have hk : segKey a = segKey b := segKey_eq_of_segLE h1 h2
        rw [List.map_cons, List.nodup_cons] at hnd
        have hmem : segKey a ∈ t.map segKey :=
          hk.symm ▸ List.mem_map_of_mem segKey hb'
        exact absurd hmem hnd.1

/-- Permutations with duplicate-free `(line, col)` keys sort identically. -/
theorem sortSegments_eq_of_perm {l₁ l₂ : List Segment} (hp : l₁.Perm l₂)
    (hnd : (l₁.map segKey).Nodup) : sortSegments l₁ = sortSegments l₂ := by
  refine eq_of_perm_sorted_keys ?_ ?_ ?_ ?_
  · exact (List.perm_insertionSort segLE l₁).trans
      (hp.trans (List.perm_insertionSort segLE l₂).symm)
  · exact List.sorted_insertionSort segLE l₁
  · exact List.sorted_insertionSort segLE l₂
  · exact (((List.perm_insertionSort segLE l₁).map segKey).nodup_iff).mpr hnd

/-- C3 counterexample: the claim includes inputs with identical `(line, col)`
positions, but there the stable sort preserves the input order of the tied
segments, so two permutations of the same multiset can disagree: with
`A = (1,1,5,true,true)`, `B = (1,1,0,true,false)`, `C = (2,1,7,true,false)`,
the input `[A,B,C]` resolves line 2 to count 0 while `[B,A,C]` resolves it to
count 5. -/
theorem c3_counterexample :
    ([⟨1, 1, 5, true, true⟩, ⟨1, 1, 0, true, false⟩, ⟨2, 1, 7, true, false⟩] :
        List Segment).Perm
      [⟨1, 1, 0, true, false⟩, ⟨1, 1, 5, true, true⟩, ⟨2, 1, 7, true, false⟩]
    ∧ (buildMapping "f" [⟨1, 1, 5, true, true⟩, ⟨1, 1, 0, true, false⟩,
        ⟨2, 1, 7, true, false⟩]).lineCounts.lookup 2 = some 0
    ∧ (buildMapping "f" [⟨1, 1, 0, true, false⟩, ⟨1, 1, 5, true, true⟩,
        ⟨2, 1, 7, true, false⟩]).lineCounts.lookup 2 = some 5
    ∧ (buildMapping "f" [⟨1, 1, 5, true, true⟩, ⟨1, 1, 0, true, false⟩,
          ⟨2, 1, 7, true, false⟩]).lineCounts
        ≠ (buildMapping "f" [⟨1, 1, 0, true, false⟩, ⟨1, 1, 5, true, true⟩,
          ⟨2, 1, 7, true, false⟩]).lineCounts := by
  refine ⟨by decide, by decide, by decide, by decide⟩

/-- C3 (amended): permuted-input invariance holds whenever no two segments of
the input share a `(line, col)` position: then any two permutations of the
same multiset produce equal `lineCounts` and equal `maxCount`. -/
theorem c3_permutation_invariance (n : String) (l₁ l₂ : List Segment)
    (hp : l₁.Perm l₂) (hnd : (l₁.map segKey).Nodup) :
    (buildMapping n l₁).lineCounts = (buildMapping n l₂).lineCounts
    ∧ (buildMapping n l₁).maxCount = (buildMapping n l₂).maxCount := by
  have h : buildMapping n l₁ = buildMapping n l₂ := by
    unfold buildMapping
    rw [sortSegments_eq_of_perm hp hnd]
  rw [h]
  exact ⟨rfl, rfl⟩

/-- Witness for C3 (amended) at a concrete permutation pair with pairwise
distinct positions. -/
theorem c3_permutation_invariance_witness :
    ([⟨2, 1, 3, true, true⟩, ⟨1, 1, 0, true, true⟩, ⟨3, 1, 1, true, false⟩] :
        List Segment).Perm
      [⟨3, 1, 1, true, false⟩, ⟨1, 1, 0, true, true⟩, ⟨2, 1, 3, true, true⟩]
    ∧ (([⟨2, 1, 3, true, true⟩, ⟨1, 1, 0, true, true⟩,
          ⟨3, 1, 1, true, false⟩] : List Segment).map segKey).Nodup
    ∧ ((buildMapping "f" [⟨2, 1, 3, true, true⟩, ⟨1, 1, 0, true, true⟩,
          ⟨3, 1, 1, true, false⟩]).lineCounts
        = (buildMapping "f" [⟨3, 1, 1, true, false⟩, ⟨1, 1, 0, true, true⟩,
          ⟨2, 1, 3, true, true⟩]).lineCounts
      ∧ (buildMapping "f" [⟨2, 1, 3, true, true⟩, ⟨1, 1, 0, true, true⟩,
          ⟨3, 1, 1, true, false⟩]).maxCount
        = (buildMapping "f" [⟨3, 1, 1, true, false⟩, ⟨1, 1, 0, true, true⟩,
          ⟨2, 1, 3, true, true⟩]).maxCount) :=
  ⟨by decide, by decide,
   c3_permutation_invariance "f"
     [⟨2, 1, 3, true, true⟩, ⟨1, 1, 0, true, true⟩, ⟨3, 1, 1, true, false⟩]
     [⟨3, 1, 1, true, false⟩, ⟨1, 1, 0, true, true⟩, ⟨2, 1, 3, true, true⟩]
     (by decide) (by decide)⟩

/-- Consecutive pairs of a list sorted by `segLE` are pairwise ordered on
their first components. -/
theorem pairwise_fst_zip_tail : ∀ {l : List Segment}, List.Pairwise segLE l →
    List.Pairwise (fun p q : Segment × Segment => segLE p.1 q.1) (l.zip l.tail) := by
  intro l
  induction l with
  | nil => intro _; simp
  | cons a t ih =>
    intro h
    cases t with
    | nil => simp
    | cons b u =>
      rw [List.pairwise_cons] at h
      have ht := ih h.2
      simp only [List.tail_cons] at ht ⊢
      rw [List.zip_cons_cons, List.pairwise_cons]
      refine ⟨?_, ht⟩
      intro q hq
      obtain ⟨q1, q2⟩ := q
      exact h.1 q1 (List.of_mem_zip hq).1

/-- C6: uncovered-region extraction over the sorted segments — a consecutive
pair contributes a region exactly when its first segment has `count == 0` and
`isRegionEntry == true`; each qualifying pair contributes exactly one region
(no merging or deduplication, witnessed by the length equation and the
index-wise correspondence), each region runs from the first segment's position
to the second segment's position, and the regions come out in ascending
(lexicographic) start-position order. -/
theorem c6_uncovered_region_extraction (n : String) (segs : List Segment) :
    (uncoveredRegions (buildMapping n segs)).length
        = (((buildMapping n segs).segments.zip
            (buildMapping n segs).segments.tail).filter qualPair).length
    ∧ (∀ p ∈ (buildMapping n segs).segments.zip
          (buildMapping n segs).segments.tail,
        ((p.1.count = 0 ∧ p.1.isRegionEntry = true) ↔
          p ∈ ((buildMapping n segs).segments.zip
            (buildMapping n segs).segments.tail).filter qualPair))
    ∧ (∀ (i : Nat) (h1 : i < (uncoveredRegions (buildMapping n segs)).length)
        (h2 : i < (((buildMapping n segs).segments.zip
            (buildMapping n segs).segments.tail).filter qualPair).length),
        (uncoveredRegions (buildMapping n segs)).get ⟨i, h1⟩
          = segPairToRegion ((((buildMapping n segs).segments.zip
              (buildMapping n segs).segments.tail).filter qualPair).get ⟨i, h2⟩))
    ∧ List.Pairwise (fun r1 r2 => posLE r1.1 r2.1)
        (uncoveredRegions (buildMapping n segs)) := by
  refine ⟨?_, ?_, ?_, ?_⟩
  · exact List.length_map _ _
  · intro p hp
    constructor
    · intro hq
      rw [List.mem_filter]
      refine ⟨hp, ?_⟩
      simp [qualPair, hq.1, hq.2]
    · intro hm
      have := (List.mem_filter.mp hm).2
      simpa [qualPair] using this
  · intro i h1 h2
    simp only [uncoveredRegions, List.get_eq_getElem, List.getElem_map]
  · have hs : List.Pairwise segLE (buildMapping n segs).segments :=
      List.sorted_insertionSort segLE segs
    have hz := pairwise_fst_zip_tail hs
    have hf : List.Pairwise (fun p q : Segment × Segment => segLE p.1 q.1)
        (((buildMapping n segs).segments.zip
          (buildMapping n segs).segments.tail).filter qualPair) :=
      List.Pairwise.sublist (List.filter_sublist _) hz
    unfold uncoveredRegions
    rw [List.pairwise_map]
    refine hf.imp ?_
    intro p q h
    unfold segLE at h
    unfold posLE segPairToRegion
    exact h

/-- Witness for C6: two qualifying pairs produce two adjacent regions that are
kept separate, and the index-wise correspondence holds at index 0. -/
theorem c6_uncovered_region_extraction_witness :
    uncoveredRegions (buildMapping "f" [⟨1, 1, 0, true, true⟩,
        ⟨2, 1, 0, true, true⟩, ⟨3, 1, 1, true, false⟩])
      = [((1, 1), (2, 1)), ((2, 1), (3, 1))]
    ∧ (uncoveredRegions (buildMapping "f" [⟨1, 1, 0, true, true⟩,
        ⟨2, 1, 0, true, true⟩, ⟨3, 1, 1, true, false⟩])).get ⟨0, by decide⟩
      = segPairToRegion ((((buildMapping "f" [⟨1, 1, 0, true, true⟩,
          ⟨2, 1, 0, true, true⟩, ⟨3, 1, 1, true, false⟩]).segments.zip
          (buildMapping "f" [⟨1, 1, 0, true, true⟩, ⟨2, 1, 0, true, true⟩,
          ⟨3, 1, 1, true, false⟩]).segments.tail).filter qualPair).get
            ⟨0, by decide⟩) :=
  ⟨by decide,
   (c6_uncovered_region_extraction "f" [⟨1, 1, 0, true, true⟩,
      ⟨2, 1, 0, true, true⟩, ⟨3, 1, 1, true, false⟩]).2.2.1 0
     (by decide) (by decide)⟩

/-- Agreement on everything but `hasCount` means equal scrubbed segments. -/
theorem scrub_eq_of_rel {a b : Segment} (h : EqExceptHasCount a b) :
    scrub a = scrub b := by
  obtain ⟨h1, h2, h3, h4⟩ := h
  unfold scrub
  rw [h1, h2, h3, h4]

/-- Pointwise agreement up to `hasCount` means equal scrubbed lists. -/
theorem map_scrub_eq {l₁ l₂ : List Segment}
    (h : List.Forall₂ EqExceptHasCount l₁ l₂) : l₁.map scrub = l₂.map scrub := by
  induction h with
  | nil => rfl
  | cons hr _ ih => simp [scrub_eq_of_rel hr, ih]

/-- The position sort commutes with scrubbing (`scrub` keeps the sort key). -/
theorem sortSegments_map_scrub (l : List Segment) :
    sortSegments (l.map scrub) = (sortSegments l).map scrub :=
  (List.map_insertionSort segLE segLE scrub l (fun _ _ _ _ => Iff.rfl)).symm

/-- The priority sort commutes with scrubbing (`scrub` keeps the priority
key). -/
theorem prioritize_map_scrub (l : List Segment) :
    prioritize (l.map scrub) = (prioritize l).map scrub :=
  (List.map_insertionSort prioGE prioGE scrub l (fun _ _ _ _ => Iff.rfl)).symm

/-- Dominant-count resolution ignores `hasCount`. -/
theorem dominantCount_map_scrub (l : List Segment) :
    dominantCount (l.map scrub) = dominantCount l := by
  unfold dominantCount
  rw [prioritize_map_scrub]
  cases prioritize l with
  | nil => rfl
  | cons s t => rfl

/-- `addSeg` commutes with scrubbing the stored segments. -/
theorem addSeg_map_scrub (m : List (Nat × List Segment)) (line : Nat)
    (s : Segment) :
    addSeg (m.map (fun p => (p.1, p.2.map scrub))) line (scrub s)
      = (addSeg m line s).map (fun p => (p.1, p.2.map scrub)) := by
  induction m with
  | nil => rfl
  | cons p t ih =>
    cases p with
    | mk a ss =>
      by_cases h : a = line
      · simp [addSeg, h]
      · simp [addSeg, h, ih]

/-- Folding `addSeg` over a list of lines commutes with scrubbing. -/
theorem foldl_addSeg_map_scrub (s : Segment) (lines : List Nat) :
    ∀ m : List (Nat × List Segment),
      lines.foldl (fun m line => addSeg m line (scrub s))
          (m.map (fun p => (p.1, p.2.map scrub)))
        = (lines.foldl (fun m line => addSeg m line s) m).map
            (fun p => (p.1, p.2.map scrub)) := by
  induction lines with
  | nil => intro m; rfl
  | cons a t ih =>
    intro m
    simp only [List.foldl_cons]
    rw [addSeg_map_scrub]
    exact ih _

/-- `registerRange` commutes with scrubbing. -/
theorem registerRange_map_scrub (m : List (Nat × List Segment)) (s : Segment)
    (start stop : Nat) :
    registerRange (m.map (fun p => (p.1, p.2.map scrub))) (scrub s) start stop
      = (registerRange m s start stop).map (fun p => (p.1, p.2.map scrub)) :=
  foldl_addSeg_map_scrub s (List.range' start (stop - start)) m

/-- The per-line activation pass commutes with scrubbing: scrubbed input
produces the same dictionary with scrubbed stored segments. -/
theorem buildSFL_map_scrub (l : List Segment) :
    buildSFL (l.map scrub)
      = (buildSFL l).map (fun p => (p.1, p.2.map scrub)) := by
  unfold buildSFL
  have hz : (l.map scrub).zip (l.map scrub).tail
      = (l.zip l.tail).map (Prod.map scrub scrub) := by
    rw [← List.map_tail]
    exact List.zip_map scrub scrub l l.tail
  rw [hz, List.foldl_map]
  have hgen : ∀ (ps : List (Segment × Segment)) (m : List (Nat × List Segment)),
      ps.foldl
          (fun m p => registerRange m (scrub p.1) (scrub p.1).line
            (segEnd (scrub p.2)))
          (m.map (fun p => (p.1, p.2.map scrub)))
        = (ps.foldl (fun m p => registerRange m p.1 p.1.line (segEnd p.2)) m).map
            (fun p => (p.1, p.2.map scrub)) := by
    intro ps
    induction ps with
    | nil => intro m; rfl
    | cons q t ih =>
      intro m
      simp only [List.foldl_cons]
      rw [registerRange_map_scrub]
      exact ih _
  exact hgen (l.zip l.tail) []

/-- `lineCounts` ignores the `hasCount` field of the input. -/
theorem lineCounts_map_scrub (n : String) (l : List Segment) :
    (buildMapping n (l.map scrub)).lineCounts
      = (buildMapping n l).lineCounts := by
  show (buildLC (buildSFL (sortSegments (l.map scrub)))).1
      = (buildLC (buildSFL (sortSegments l))).1
  rw [sortSegments_map_scrub, buildSFL_map_scrub, buildLC_eq, buildLC_eq]
  simp only [List.map_map]
  refine List.map_congr_left ?_
  intro p _
  simp [Function.comp, dominantCount_map_scrub]

/-- `maxCount` ignores the `hasCount` field of the input. -/
theorem maxCount_map_scrub (n : String) (l : List Segment) :
    (buildMapping n (l.map scrub)).maxCount = (buildMapping n l).maxCount := by
  show (buildLC (buildSFL (sortSegments (l.map scrub)))).2
      = (buildLC (buildSFL (sortSegments l))).2
  rw [sortSegments_map_scrub, buildSFL_map_scrub, buildLC_eq, buildLC_eq]
  simp only [List.map_map]
  have : ((buildSFL (sortSegments l)).map
      ((fun p => dominantCount p.2) ∘ (fun p => (p.1, p.2.map scrub))))
      = (buildSFL (sortSegments l)).map (fun p => dominantCount p.2) := by
    refine List.map_congr_left ?_
    intro p _
    simp [Function.comp, dominantCount_map_scrub]
  rw [this]

/-- The uncovered-region list ignores the `hasCount` field of the input. -/
theorem uncoveredRegions_map_scrub (n : String) (l : List Segment) :
    uncoveredRegions (buildMapping n (l.map scrub))
      = uncoveredRegions (buildMapping n l) := by
  show (((sortSegments (l.map scrub)).zip
      (sortSegments (l.map scrub)).tail).filter qualPair).map segPairToRegion
    = (((sortSegments l).zip
      (sortSegments l).tail).filter qualPair).map segPairToRegion
  rw [sortSegments_map_scrub]
  have hz : ((sortSegments l).map scrub).zip ((sortSegments l).map scrub).tail
      = ((sortSegments l).zip (sortSegments l).tail).map
          (Prod.map scrub scrub) := by
    rw [← List.map_tail]
    exact List.zip_map scrub scrub _ _
  rw [hz, List.filter_map, List.map_map]
  have h1 : qualPair ∘ Prod.map scrub scrub = qualPair := by
    funext p
    rfl
  have h2 : segPairToRegion ∘ Prod.map scrub scrub = segPairToRegion := by
    funext p
    rfl
  rw [h1, h2]

/-- C10: the `hasCount` flag never influences the outputs of the core
algorithm — two inputs that agree on every field except `hasCount` yield
identical `lineCounts`, identical `maxCount` and an identical uncovered-region
list. -/
theorem c10_has_count_noninterference (n : String) (l₁ l₂ : List Segment)
    (h : List.Forall₂ EqExceptHasCount l₁ l₂) :
    (buildMapping n l₁).lineCounts = (buildMapping n l₂).lineCounts
    ∧ (buildMapping n l₁).maxCount = (buildMapping n l₂).maxCount
    ∧ uncoveredRegions (buildMapping n l₁)
        = uncoveredRegions (buildMapping n l₂) := by
  have hm : l₁.map scrub = l₂.map scrub := map_scrub_eq h
  refine ⟨?_, ?_, ?_⟩
  · rw [← lineCounts_map_scrub n l₁, hm, lineCounts_map_scrub]
  · rw [← maxCount_map_scrub n l₁, hm, maxCount_map_scrub]
  · rw [← uncoveredRegions_map_scrub n l₁, hm, uncoveredRegions_map_scrub]

/-- Witness for C10 at a concrete pair of inputs differing only in
`hasCount`. -/
theorem c10_has_count_noninterference_witness :
    List.Forall₂ EqExceptHasCount
      [⟨1, 1, 0, true, true⟩, ⟨3, 1, 7, true, false⟩]
      [⟨1, 1, 0, false, true⟩, ⟨3, 1, 7, false, false⟩]
    ∧ ((buildMapping "f" [⟨1, 1, 0, true, true⟩,
          ⟨3, 1, 7, true, false⟩]).lineCounts
        = (buildMapping "f" [⟨1, 1, 0, false, true⟩,
          ⟨3, 1, 7, false, false⟩]).lineCounts
      ∧ (buildMapping "f" [⟨1, 1, 0, true, true⟩,
          ⟨3, 1, 7, true, false⟩]).maxCount
        = (buildMapping "f" [⟨1, 1, 0, false, true⟩,
          ⟨3, 1, 7, false, false⟩]).maxCount
      ∧ uncoveredRegions (buildMapping "f" [⟨1, 1, 0, true, true⟩,
          ⟨3, 1, 7, true, false⟩])
        = uncoveredRegions (buildMapping "f" [⟨1, 1, 0, false, true⟩,
          ⟨3, 1, 7, false, false⟩])) :=
  ⟨List.Forall₂.cons ⟨rfl, rfl, rfl, rfl⟩
    (List.Forall₂.cons ⟨rfl, rfl, rfl, rfl⟩ List.Forall₂.nil),
   c10_has_count_noninterference "f"
     [⟨1, 1, 0, true, true⟩, ⟨3, 1, 7, true, false⟩]
     [⟨1, 1, 0, false, true⟩, ⟨3, 1, 7, false, false⟩]
     (List.Forall₂.cons ⟨rfl, rfl, rfl, rfl⟩
       (List.Forall₂.cons ⟨rfl, rfl, rfl, rfl⟩ List.Forall₂.nil))⟩

end ClangCoverage
